import Mathlib

/-!
Verification development for the tomless TOML-like parser (src/tomless.py).

The embedding follows the Python source closely:
* `TomlTokenizer` scans each whitespace-stripped line with a fixed, ordered
  list of anchored patterns; within one pass of the `while` loop a successful
  match advances the offset and the `for` loop continues with the NEXT pattern
  (the source has no `break`), restarting from the first pattern only at the
  start of the next pass.  A pass with no progress raises a lex error.
* `TomlParser` is a stack machine with a status stack, a section stack, a
  token (bracket sentinel) stack and a value stack; its only outputs are a
  best-effort result tree or an uncaught Python runtime error (modelled by
  `PErr`), and a lex error from the tokenizer (modelled by `LexError`).

Machine-level notes on the model:
* Python strings are modelled as `List Char`; `String` appears only at the
  outermost API (`tokenize_content`, `parse_content`) and is converted via
  `String.data`.
* `float(x)` and `dateutil.parser.parse(x)` are external decoders applied to
  the matched text; the parser never computes with the decoded values, so the
  model keeps the matched text inside the `pFloat` / `pDatetimeRaw`
  constructors.
* Python 2 `str.decode('utf-8')` inside `unescape` is the identity on the
  text inputs considered here and is modelled as the identity.
* Recursions whose termination is by offset progress carry an explicit gas
  argument that is always initialised large enough to be unreachable (gas
  counts strictly increasing offsets bounded by the line length), keeping all
  definitions structurally recursive and kernel-reducible.
-/

namespace Tomless

/-- Python `\s` character class for byte strings: space, tab, newline,
carriage return, vertical tab, form feed. -/
def isWsChar (c : Char) : Bool :=
  c == ' ' || c == '\t' || c == '\n' || c == '\r' ||
  c == Char.ofNat 11 || c == Char.ofNat 12

/-- First character of the `id` pattern `[_a-zA-Z]`. -/
def isIdStart (c : Char) : Bool :=
  c == '_' || ('a' ≤ c && c ≤ 'z') || ('A' ≤ c && c ≤ 'Z')

/-- Continuation characters of the `id` pattern `[a-zA-Z0-9_]`. -/
def isIdChar (c : Char) : Bool :=
  isIdStart c || c.isDigit

/-- Does the second list start with the first one? -/
def startsWithChars : List Char → List Char → Bool
  | [], _ => true
  | _ :: _, [] => false
  | p :: ps, c :: cs => p == c && startsWithChars ps cs

/-- Python `str.strip()`: drop leading and trailing whitespace. -/
def strip (cs : List Char) : List Char :=
  ((cs.dropWhile isWsChar).reverse.dropWhile isWsChar).reverse

/-- Worker for `splitLines`; `acc` holds the current line reversed. -/
def splitLinesGo (acc : List Char) : List Char → List (List Char)
  | [] => if acc.isEmpty then [] else [acc.reverse]
  | '\r' :: '\n' :: rest => acc.reverse :: splitLinesGo [] rest
  | '\n' :: rest => acc.reverse :: splitLinesGo [] rest
  | '\r' :: rest => acc.reverse :: splitLinesGo [] rest
  | c :: rest => splitLinesGo (c :: acc) rest

/-- Python 2 `str.splitlines()`: split on `\n`, `\r` and `\r\n`, with no
trailing empty line and `[]` on the empty string. -/
def splitLines (cs : List Char) : List (List Char) :=
  splitLinesGo [] cs

/-- Worker for `splitDots`. -/
def splitDotsGo (acc : List Char) : List Char → List (List Char)
  | [] => [acc.reverse]
  | '.' :: rest => acc.reverse :: splitDotsGo [] rest
  | c :: rest => splitDotsGo (c :: acc) rest

/-- Python `str.split('.')`. -/
def splitDots (cs : List Char) : List (List Char) :=
  splitDotsGo [] cs

/-- Python `str.replace(ab, r)` for a two-character needle `a, b`:
left-to-right, non-overlapping. -/
def replace2 (a b r : Char) : List Char → List Char
  | c :: d :: rest =>
    if c == a && d == b then r :: replace2 a b r rest
    else c :: replace2 a b r (d :: rest)
  | cs => cs

/-- `unescape` from the source: replace the two-character sequences for tab,
newline and carriage return, in that order; the trailing Python 2
`decode('utf-8')` is the identity on the text handled here. -/
def unescape (cs : List Char) : List Char :=
  replace2 '\\' 'r' '\r' (replace2 '\\' 'n' '\n' (replace2 '\\' 't' '\t' cs))

/-- Python `int(x)` on a string of decimal digits. -/
def digitsVal (cs : List Char) : Nat :=
  cs.foldl (fun a c => a * 10 + (c.toNat - '0'.toNat)) 0

/-- A Python runtime value as it flows through the parser: scalars, lists,
nested dicts (insertion-ordered association lists) and `None`.  `pFloat` and
`pDatetimeRaw` keep the matched source text (see the module comment). -/
inductive PyVal where
  | pBool (b : Bool)
  | pInt (n : Nat)
  | pFloat (raw : List Char)
  | pStr (s : List Char)
  | pDatetimeRaw (raw : List Char)
  | pList (xs : List PyVal)
  | pDict (entries : List (PyVal × PyVal))
  | pNone

/-- Python truthiness of the values above.  A float is `0.0` exactly when its
matched text (`\d+\.\d+`) consists of zeros and the dot. -/
def PyVal.truthy : PyVal → Bool
  | .pBool b => b
  | .pInt n => n != 0
  | .pFloat raw => !(raw.all fun c => c == '0' || c == '.')
  | .pStr s => !s.isEmpty
  | .pDatetimeRaw _ => true
  | .pList xs => !xs.isEmpty
  | .pDict es => !es.isEmpty
  | .pNone => false

/-- Equality used for dictionary keys.  The keys that actually occur are
identifier strings and `None`; Python's cross-type numeric equality
(`1 == 1.0 == True`) and the `TypeError` on unhashable keys never arise from
tokens this tokenizer produces and are not modelled. -/
def keyEq (a b : PyVal) : Bool :=
  match a, b with
  | .pStr x, .pStr y => x == y
  | .pNone, .pNone => true
  | .pBool x, .pBool y => x == y
  | .pInt x, .pInt y => x == y
  | .pFloat x, .pFloat y => x == y
  | .pDatetimeRaw x, .pDatetimeRaw y => x == y
  | _, _ => false

/-- Token type: either a named kind, or (for the single-character literal
pattern) the matched character itself, as in the source where the literal
token's type is its own character.  `list` is the synthetic kind produced by
`combine_values`. -/
inductive TokType where
  | bool
  | comment
  | id
  | sect
  | string
  | lit (c : Char)
  | datetime
  | float
  | int
  | eof
  | list
deriving BEq, DecidableEq, Repr

/-- `TomlToken = namedtuple('TomlToken', 'type, val, row_no, col_no')`.
Row and column are `none` for the synthetic `eof` and `list` tokens. -/
structure TomlToken where
  type : TokType
  val : PyVal
  rowNo : Option Nat
  colNo : Option Nat

/-- The lex error raised by `tokenize_line`: line number (1-indexed over the
lines of the stripped content), offset within the stripped line, and the
stripped line text. -/
structure LexError where
  lineNo : Nat
  offset : Nat
  line : List Char
deriving DecidableEq, Repr

/-- `List.span` written with match-destructuring so that evaluated results
stay shared during definitional reduction: the longest boolean-satisfying
run and the remainder. -/
def spanP (p : Char → Bool) : List Char → List Char × List Char
  | [] => ([], [])
  | c :: cs =>
    if p c then
      match spanP p cs with
      | (a, b) => (c :: a, b)
    else ([], c :: cs)

namespace TomlTokenizer

/-- The ten pattern slots of `TomlTokenizer.PATTERNS`, in source order. -/
inductive PatId where
  | bool
  | comment
  | id
  | sect
  | string
  | whitespace
  | literal
  | datetime
  | float
  | int

/-- Remainder of `cs` after the literal pattern `ps`, if `ps` starts it. -/
def stripLit : List Char → List Char → Option (List Char)
  | [], cs => some cs
  | _ :: _, [] => none
  | p :: ps, c :: cs => if p == c then stripLit ps cs else none

/-- An anchored `[_a-zA-Z][a-zA-Z0-9_]*` match: matched text and remainder. -/
def matchIdSplit (cs : List Char) : Option (List Char × List Char) :=
  match cs with
  | c :: rest =>
    if isIdStart c then
      match spanP isIdChar rest with
      | (a, b) => some (c :: a, b)
    else none
  | [] => none

/-- An anchored `(\.[_a-zA-Z][a-zA-Z0-9_]*)*\]` match: matched text
(including the closing bracket) and remainder.  The regex star is
deterministic here: every backtracking alternative fails whenever the greedy
scan does, because identifier characters, the dot and the closing bracket
are disjoint.  Gas counts the star iterations (each consumes at least two
characters), so the suffix length is always enough. -/
def sectTailGo : Nat → List Char → Option (List Char × List Char)
  | _, ']' :: rest => some ([']'], rest)
  | g + 1, '.' :: rest =>
    match matchIdSplit rest with
    | some (i, r2) =>
      match sectTailGo g r2 with
      | some (t, r3) => some ('.' :: (i ++ t), r3)
      | none => none
    | none => none
  | _, _ => none

/-- An anchored section-header match
`\[[_a-zA-Z][a-zA-Z0-9_]*(\.[_a-zA-Z][a-zA-Z0-9_]*)*\]`. -/
def matchSectSplit (cs : List Char) : Option (List Char × List Char) :=
  match cs with
  | '[' :: rest =>
    match matchIdSplit rest with
    | some (i, r2) =>
      match sectTailGo r2.length r2 with
      | some (t, r3) => some ('[' :: (i ++ t), r3)
      | none => none
    | none => none
  | _ => none

/-- Consume exactly `n` decimal digits. -/
def dropDigits : Nat → List Char → Option (List Char)
  | 0, cs => some cs
  | n + 1, c :: cs => if c.isDigit then dropDigits n cs else none
  | _ + 1, [] => none

/-- Consume one expected character. -/
def expectC (c : Char) : List Char → Option (List Char)
  | d :: rest => if d == c then some rest else none
  | [] => none

/-- Remainder after an anchored match of the date-time pattern
`\d{4}-\d{2}-\d{2}T\d{2}:\d{2}:\d{2}([-+]\d{2}:?\d{2}|Z)`.  The optional
colon in the offset is deterministic: if a colon is present but not followed
by two digits, the colon-free alternative fails as well. -/
def dtCore (cs : List Char) : Option (List Char) := do
  let r ← dropDigits 4 cs
  let r ← expectC '-' r
  let r ← dropDigits 2 r
  let r ← expectC '-' r
  let r ← dropDigits 2 r
  let r ← expectC 'T' r
  let r ← dropDigits 2 r
  let r ← expectC ':' r
  let r ← dropDigits 2 r
  let r ← expectC ':' r
  let r ← dropDigits 2 r
  match r with
  | 'Z' :: rest => some rest
  | c :: rest =>
    if c == '+' || c == '-' then
      match dropDigits 2 rest with
      | some r2 =>
        match r2 with
        | ':' :: r3 => dropDigits 2 r3
        | _ => dropDigits 2 r2
      | none => none
    else none
  | [] => none

/-- An anchored date-time match: matched text and remainder. -/
def matchDatetimeSplit (cs : List Char) : Option (List Char × List Char) :=
  match dtCore cs with
  | some rest => some (cs.take (cs.length - rest.length), rest)
  | none => none

/-- The anchored match of pattern `p` at the start of the suffix `cs` of the
stripped line: the matched text and the remaining suffix, if any.  Every
pattern consumes at least one character when it matches. -/
def patMatch (p : PatId) (cs : List Char) : Option (List Char × List Char) :=
  match p with
  | .bool =>
    match stripLit "true".data cs with
    | some rest => some ("true".data, rest)
    | none =>
      match stripLit "false".data cs with
      | some rest => some ("false".data, rest)
      | none => none
  | .comment =>
    match cs with
    | '#' :: _ => some (cs, [])
    | _ => none
  | .id => matchIdSplit cs
  | .sect => matchSectSplit cs
  | .string =>
    match cs with
    | '"' :: rest =>
      match spanP (fun c => !(c == '"')) rest with
      | (body, more) =>
        match more with
        | '"' :: rest2 => some ('"' :: (body ++ ['"']), rest2)
        | _ => none
    | _ => none
  | .whitespace =>
    match spanP isWsChar cs with
    | ([], _) => none
    | (w, rest) => some (w, rest)
  | .literal =>
    match cs with
    | c :: rest =>
      if c == ',' || c == '[' || c == ']' || c == '=' then some ([c], rest) else none
    | [] => none
  | .datetime => matchDatetimeSplit cs
  | .float =>
    match spanP Char.isDigit cs with
    | ([], _) => none
    | (d1, r1) =>
      match r1 with
      | '.' :: r2 =>
        match spanP Char.isDigit r2 with
        | ([], _) => none
        | (d2, r3) => some (d1 ++ '.' :: d2, r3)
      | _ => none
  | .int =>
    match spanP Char.isDigit cs with
    | ([], _) => none
    | (d, rest) => some (d, rest)

/-- Token produced for a match of pattern `p` with matched text `content` at
`offset` in line `lineNo`; `none` for whitespace, which is discarded. -/
def mkToken (p : PatId) (content : List Char) (lineNo offset : Nat) : Option TomlToken :=
  match p with
  | .bool => some ⟨.bool, .pBool (content == "true".data), some lineNo, some offset⟩
  | .comment => some ⟨.comment, .pStr (strip (content.drop 1)), some lineNo, some offset⟩
  | .id => some ⟨.id, .pStr content, some lineNo, some offset⟩
  | .sect => some ⟨.sect, .pStr (strip (content.drop 1).dropLast), some lineNo, some offset⟩
  | .string => some ⟨.string, .pStr (unescape (strip (content.drop 1).dropLast)), some lineNo, some offset⟩
  | .whitespace => none
  | .literal =>
    match content with
    | [c] => some ⟨.lit c, .pStr content, some lineNo, some offset⟩
    | _ => none
  | .datetime => some ⟨.datetime, .pDatetimeRaw content, some lineNo, some offset⟩
  | .float => some ⟨.float, .pFloat content, some lineNo, some offset⟩
  | .int => some ⟨.int, .pInt (digitsVal content), some lineNo, some offset⟩

/-- The ordered pattern list of the source. -/
def PATTERNS : List PatId :=
  [.bool, .comment, .id, .sect, .string, .whitespace, .literal, .datetime, .float, .int]

/-- Result of one pass of the inner `for` loop: tokens emitted during the
pass (in order), the remaining suffix, the column after the pass, and
whether any pattern matched.  Because every pattern consumes at least one
character when it matches, "some pattern matched" is exactly the source's
`current_offset == offset` progress test. -/
structure PassOut where
  toks : List TomlToken
  rest : List Char
  col : Nat
  progress : Bool

/-- One pass of the inner `for` loop of `tokenize_line`: try the remaining
patterns in order; a successful match emits its token (unless whitespace) and
advances past the matched text, and the scan continues with the NEXT pattern
at the new position (the source has no `break`). -/
def runPass (lineNo : Nat) : List PatId → List Char → Nat → PassOut
  | [], cur, col => ⟨[], cur, col, false⟩
  | p :: ps, cur, col =>
    match patMatch p cur with
    | none => runPass lineNo ps cur col
    | some (content, rest2) =>
      match runPass lineNo ps rest2 (col + content.length) with
      | ⟨ts, r3, c3, _⟩ =>
        match mkToken p content lineNo col with
        | none => ⟨ts, r3, c3, true⟩
        | some t => ⟨t :: ts, r3, c3, true⟩

/-- The `while offset < len(line)` loop of `tokenize_line`: run passes until
the stripped line is exhausted, raising a lex error when a pass makes no
progress.  `errLine` is the stripped line reported in the error.  Each pass
consumes at least one character, so gas = the stripped line's length makes
the gas-exhaustion branch unreachable. -/
def tokLineGo (lineNo : Nat) (errLine : List Char) : Nat → List Char → Nat →
    Except LexError (List TomlToken)
  | gas, cur, col =>
    match cur with
    | [] => .ok []
    | _ :: _ =>
      match runPass lineNo PATTERNS cur col with
      | ⟨toks, rest, col2, progress⟩ =>
        if progress then
          match gas with
          | 0 => .ok toks
          | g + 1 =>
            match tokLineGo lineNo errLine g rest col2 with
            | .ok ts => .ok (toks ++ ts)
            | .error e => .error e
        else .error ⟨lineNo, col, errLine⟩

/-- `TomlTokenizer.tokenize_line`: the line is stripped before scanning, so
columns (and the line text in a lex error) refer to the stripped line. -/
def tokenize_line (line : List Char) (lineNo : Nat) : Except LexError (List TomlToken) :=
  match strip line with
  | l => tokLineGo lineNo l l.length l 0

/-- Concatenate per-line token sequences; the first lex error aborts (the
parser materialises the whole token list before parsing). -/
def tokLinesGo : Nat → List (List Char) → Except LexError (List TomlToken)
  | _, [] => .ok []
  | i, l :: ls =>
    match tokenize_line l i with
    | .error e => .error e
    | .ok ts =>
      match tokLinesGo (i + 1) ls with
      | .error e => .error e
      | .ok rest => .ok (ts ++ rest)

/-- `TomlTokenizer.tokenize_content`: the whole content is stripped first,
then split into lines numbered from 1. -/
def tokenize_content (content : String) : Except LexError (List TomlToken) :=
  tokLinesGo 1 (splitLines (strip content.data))

end TomlTokenizer

namespace TomlParser

/-- Uncaught Python runtime errors of the parser: `attributeError` for dict
operations (or `.split`) applied to a non-dict / non-string value,
`indexError` for `pop()` from an empty list. -/
inductive PErr where
  | attributeError
  | indexError
deriving DecidableEq, Repr

/-- The three parser states. -/
inductive Status where
  | buildSection
  | buildValue
  | buildList
deriving BEq, DecidableEq, Repr

/-- Argument of `enter`: none (re-entry), a section-name value for
`StatusBuildSection`, or an opening-bracket token for `StatusBuildList`. -/
inductive EnterArg where
  | noA
  | nameA (v : PyVal)
  | tokA (t : TomlToken)

/-- The parser's mutable state.  All stacks have their top at the head.
`var` and `sectionName` default to `None` through `__getattr__` until first
assigned. -/
structure PState where
  result : List (PyVal × PyVal)
  context : List (PyVal × PyVal)
  statusHistory : List Status
  sectionHistory : List PyVal
  tokenHistory : List TomlToken
  valueStack : List TomlToken
  status : Status
  var : PyVal
  sectionName : PyVal

/-- Dictionary lookup (first matching key). -/
def dGet? : List (PyVal × PyVal) → PyVal → Option PyVal
  | [], _ => none
  | (k, v) :: rest, key => if keyEq k key then some v else dGet? rest key

/-- Dictionary insert-or-replace, keeping the position of an existing key
(Python dict semantics). -/
def dSet : List (PyVal × PyVal) → PyVal → PyVal → List (PyVal × PyVal)
  | [], key, v => [(key, v)]
  | (k, w) :: rest, key, v =>
    if keyEq k key then (k, v) :: rest else (k, w) :: dSet rest key v

/-- Python `dict.update`: insert the entries of `ctx` in order. -/
def dUpdate (d ctx : List (PyVal × PyVal)) : List (PyVal × PyVal) :=
  ctx.foldl (fun acc kv => dSet acc kv.1 kv.2) d

/-- The descent loop of `sync_result`: `setdefault` each path component and
finally `update` with the pending context.  If an existing value on the path
is not a dict, the next attribute access on it raises `AttributeError`
(the source does not guard this). -/
def descendUpdate : List (PyVal × PyVal) → List PyVal → List (PyVal × PyVal) →
    Except PErr (List (PyVal × PyVal))
  | d, [], ctx => .ok (dUpdate d ctx)
  | d, p :: ps, ctx =>
    match dGet? d p with
    | none =>
      match descendUpdate [] ps ctx with
      | .ok child => .ok (dSet d p (.pDict child))
      | .error e => .error e
    | some (.pDict child) =>
      match descendUpdate child ps ctx with
      | .ok child2 => .ok (dSet d p (.pDict child2))
      | .error e => .error e
    | some _ => .error .attributeError

/-- `StatusBuildSection.sync_result`: a no-op when no assignments are
pending; otherwise merge the pending context into the result tree, at the
root for an empty/`None` section name, else descending the dot-separated
path. -/
def sync_result (s : PState) (sectionName : PyVal) : Except PErr PState :=
  if s.context.isEmpty then .ok s
  else if sectionName.truthy then
    match sectionName with
    | .pStr name =>
      match descendUpdate s.result ((splitDots name).map PyVal.pStr) s.context with
      | .ok result2 => .ok { s with result := result2, context := [] }
      | .error e => .error e
    | _ => .error .attributeError
  else .ok { s with result := dUpdate s.result s.context, context := [] }

/-- `_on_enter`, dispatched on the (just set) current status.
`StatusBuildSection` first syncs the previous section, then determines the
section name: an absent argument (re-entry) pops the previously pushed name.
`StatusBuildList` records an explicit opening-bracket token on both the
token-history stack and the value stack, and on re-entry pops the
token-history stack.  (`StatusBuildSection` is never entered with a token
argument, nor `StatusBuildList` with a name argument, at any call site.) -/
def on_enter (s : PState) (arg : EnterArg) : Except PErr PState :=
  match s.status with
  | .buildSection =>
    match sync_result s s.sectionName with
    | .error e => .error e
    | .ok s2 =>
      match (match arg with | .nameA v => v | _ => PyVal.pNone), s2.sectionHistory with
      | .pNone, n :: rest => .ok { s2 with sectionHistory := n :: rest, sectionName := n }
      | name0, h => .ok { s2 with sectionHistory := name0 :: h, sectionName := name0 }
  | .buildValue => .ok s
  | .buildList =>
    match arg with
    | .tokA t => .ok { s with tokenHistory := t :: s.tokenHistory, valueStack := t :: s.valueStack }
    | _ =>
      match s.tokenHistory with
      | _ :: rest => .ok { s with tokenHistory := rest }
      | [] => .ok s

/-- `enter`: set the current status, push it on the status history, run the
entry handler. -/
def enter (s : PState) (st : Status) (arg : EnterArg) : Except PErr PState :=
  on_enter { s with status := st, statusHistory := st :: s.statusHistory } arg

/-- `combine_values` with a stop type: pop values (accumulating them in
reverse pop order, i.e. source order) until the sentinel with the stop type
is reached, and build the synthetic `list` token.  Popping past the bottom of
the stack is an `IndexError`. -/
def combineStop (stop : TokType) : List TomlToken → List PyVal →
    Except PErr (TomlToken × List TomlToken)
  | [], _ => .error .indexError
  | v :: rest, acc =>
    if v.type == stop then .ok (⟨.list, .pList acc, none, none⟩, rest)
    else combineStop stop rest (v.val :: acc)

/-- `_on_exit`, dispatched on the current status.  `StatusBuildValue` pops
one value and assigns it to the pending context under the remembered
variable name, or only logs when the value stack is empty.
`StatusBuildList` combines values down to its sentinel and pushes the
synthetic list token back. -/
def on_exit (s : PState) : Except PErr PState :=
  match s.status with
  | .buildSection => sync_result s s.sectionName
  | .buildValue =>
    match s.valueStack with
    | v :: rest => .ok { s with valueStack := rest, context := dSet s.context s.var v.val }
    | [] => .ok s
  | .buildList =>
    match combineStop (.lit '[') s.valueStack [] with
    | .ok (v, rest) => .ok { s with valueStack := v :: rest }
    | .error e => .error e

/-- `exit`: pop the current status, run its exit handler, then re-enter the
status beneath (if any) with no argument. -/
def pexit (s : PState) : Except PErr PState :=
  match s.statusHistory with
  | [] => .error .indexError
  | _ :: rest =>
    match on_exit { s with statusHistory := rest } with
    | .error e => .error e
    | .ok s2 =>
      match s2.statusHistory with
      | [] => .ok s2
      | last :: rest2 => enter { s2 with statusHistory := rest2 } last .noA

/-- Scalar token kinds accepted as values. -/
def isScalarTok : TokType → Bool
  | .int | .float | .string | .datetime | .bool => true
  | _ => false

/-- Outcome of one dispatch of `feed`: a final state, an uncaught error, or
a request to re-feed the same token to the resumed state (the
`self.feed(token)` after `self.exit()` in `StatusBuildValue.feed`). -/
inductive FeedOut where
  | done (s : PState)
  | fail (e : PErr)
  | again (s : PState)

/-- One dispatch of `feed` on the current status.  In `StatusBuildValue`, a
token that ends the value (`id`, `]`, `section`, `eof`) first exits the
state, and `id`/`section` then ask to be re-fed to the resumed state.
Unrecognised tokens are logged and dropped. -/
def feedOnce (s : PState) (t : TomlToken) : FeedOut :=
  match s.status with
  | .buildSection =>
    if t.type == .id then .done { s with var := t.val }
    else if t.type == .lit '=' then
      match enter s .buildValue .noA with
      | .ok s2 => .done s2
      | .error e => .fail e
    else if t.type == .sect then
      match enter s .buildSection (.nameA t.val) with
      | .ok s2 => .done s2
      | .error e => .fail e
    else .done s
  | .buildValue =>
    if t.type == .id || t.type == .lit ']' || t.type == .sect || t.type == .eof then
      match pexit s with
      | .error e => .fail e
      | .ok s2 =>
        if t.type == .id || t.type == .sect then .again s2
        else .done s2
    else if isScalarTok t.type then .done { s with valueStack := t :: s.valueStack }
    else if t.type == .lit '[' then
      match enter s .buildList (.tokA t) with
      | .ok s2 => .done s2
      | .error e => .fail e
    else .done s
  | .buildList =>
    if t.type == .lit ',' then .done s
    else if t.type == .lit '[' then
      match enter s .buildList (.tokA t) with
      | .ok s2 => .done s2
      | .error e => .fail e
    else if t.type == .lit ']' then
      match pexit s with
      | .ok s2 => .done s2
      | .error e => .fail e
    else if isScalarTok t.type then .done { s with valueStack := t :: s.valueStack }
    else .done s

/-- The re-feed loop.  Every `again` step has just shrunk the status history
by one, so gas larger than the history's depth makes the gas-exhaustion
branch unreachable. -/
def feedLoop (t : TomlToken) : Nat → FeedOut → Except PErr PState
  | _, .fail e => .error e
  | _, .done s => .ok s
  | 0, .again s => .ok s
  | g + 1, .again s => feedLoop t g (feedOnce s t)

/-- `feed` with enough gas for any chain of exits. -/
def feed (s : PState) (t : TomlToken) : Except PErr PState :=
  feedLoop t (s.statusHistory.length + 1) (feedOnce s t)

/-- The token loop of `parse`: comment tokens are skipped, everything else is
fed to the current state. -/
def feedAll : PState → List TomlToken → Except PErr PState
  | s, [] => .ok s
  | s, t :: ts =>
    if t.type == TokType.comment then feedAll s ts
    else
      match feed s t with
      | .error e => .error e
      | .ok s2 => feedAll s2 ts

/-- The freshly initialised parser state (`__init__`); `status` is first
assigned by the initial `enter` and its initial value is unobservable. -/
def initState : PState :=
  { result := [], context := [], statusHistory := [], sectionHistory := []
  , tokenHistory := [], valueStack := [], status := .buildSection
  , var := .pNone, sectionName := .pNone }

/-- `TomlParser.parse`: enter `StatusBuildSection` with the empty name, feed
every non-comment token, feed one synthetic `eof` token, then call `exit`
exactly once, and return the result tree. -/
def parse (tokens : List TomlToken) : Except PErr PyVal :=
  match enter initState .buildSection (.nameA (.pStr [])) with
  | .error e => .error e
  | .ok s1 =>
    match feedAll s1 tokens with
    | .error e => .error e
    | .ok s2 =>
      match feed s2 ⟨.eof, .pStr [], none, none⟩ with
      | .error e => .error e
      | .ok s3 =>
        match pexit s3 with
        | .error e => .error e
        | .ok s4 => .ok (.pDict s4.result)

/-- What `parse_content` can raise: a lex error from the tokenizer, or an
uncaught runtime error from the parser. -/
inductive TomlError where
  | lex (e : LexError)
  | runtime (e : PErr)
deriving Repr

/-- `TomlParser.parse_content`: materialise the full token list (so any lex
error aborts before parsing), then parse. -/
def parse_content (content : String) : Except TomlError PyVal :=
  match TomlTokenizer.tokenize_content content with
  | .error e => .error (.lex e)
  | .ok toks =>
    match parse toks with
    | .error e => .error (.runtime e)
    | .ok v => .ok v

/-- A scalar value token carrying an arbitrary value, as fed to the parser;
the `string` kind stands in for any of the five scalar kinds, which every
state treats alike. -/
def scalarTok (v : PyVal) : TomlToken := ⟨.string, v, none, none⟩

/-- An `a` identifier token. -/
def idTokA : TomlToken := ⟨.id, .pStr "a".data, none, none⟩

/-- A `b` identifier token. -/
def idTokB : TomlToken := ⟨.id, .pStr "b".data, none, none⟩

/-- An `x` identifier token. -/
def idTokX : TomlToken := ⟨.id, .pStr "x".data, none, none⟩

/-- A `[s]` section-header token. -/
def sectTokS : TomlToken := ⟨.sect, .pStr "s".data, none, none⟩

/-- An `[a.b]` section-header token. -/
def sectTokAB : TomlToken := ⟨.sect, .pStr "a.b".data, none, none⟩

/-- An `=` literal token. -/
def eqTok : TomlToken := ⟨.lit '=', .pStr "=".data, none, none⟩

/-- An opening-bracket literal token. -/
def openTok : TomlToken := ⟨.lit '[', .pStr "[".data, none, none⟩

/-- A closing-bracket literal token. -/
def closeTok : TomlToken := ⟨.lit ']', .pStr "]".data, none, none⟩

/-- A comma literal token. -/
def commaTok : TomlToken := ⟨.lit ',', .pStr ",".data, none, none⟩

/-- The element tokens of a list expression: each element followed by a
comma separator. -/
def listElemToks (xs : List PyVal) : List TomlToken :=
  xs.flatMap fun x => [scalarTok x, commaTok]

/-- The token form of the statement `a = [x1, x2, ..., xn]`. -/
def listExprToks (xs : List PyVal) : List TomlToken :=
  idTokA :: eqTok :: openTok :: (listElemToks xs ++ [closeTok])

/-- The parser state reached after feeding `a`, `=`, `[` from a fresh
parse, generalised over the value stack `vs` (the opening-bracket sentinel
sits at its bottom). -/
def midState (vs : List TomlToken) : PState :=
  ⟨[], [], [.buildList, .buildValue, .buildSection], [.pStr []], [openTok], vs,
   .buildList, .pStr "a".data, .pStr []⟩

/-- The parser state after the list closes: back in `StatusBuildValue`
with value stack `vs`. -/
def afterListState (vs : List TomlToken) : PState :=
  ⟨[], [], [.buildValue, .buildSection], [.pStr []], [openTok], vs,
   .buildValue, .pStr "a".data, .pStr []⟩

end TomlParser

namespace TomlTokenizer

/-- Observer for counterexamples: the token-kind sequence of a successful
tokenization (empty on a lex error). -/
def okTokTypes : Except LexError (List TomlToken) → List TokType
  | .ok ts => ts.map TomlToken.type
  | .error _ => []

/-- Modelled from the spec's words (reference tokenizer of the restart
reading): the first pattern, in `PATTERNS` order, whose anchored match
succeeds at the current position. -/
def firstMatchGo (cs : List Char) : List PatId → Option (PatId × List Char × List Char)
  | [] => none
  | p :: ps =>
    match patMatch p cs with
    | some (content, rest) => some (p, content, rest)
    | none => firstMatchGo cs ps

/-- Modelled from the spec's words: a reference line scanner that restarts
the ordered pattern scan from the FIRST pattern after every successful
match.  Gas is the stripped line's length, enough because every match
consumes at least one character. -/
def restartTokLineGo (lineNo : Nat) (errLine : List Char) : Nat → List Char → Nat →
    Except LexError (List TomlToken)
  | gas, cur, col =>
    match cur with
    | [] => .ok []
    | _ :: _ =>
      match firstMatchGo cur PATTERNS with
      | none => .error ⟨lineNo, col, errLine⟩
      | some (p, content, rest) =>
        match gas with
        | 0 => .ok []
        | g + 1 =>
          match mkToken p content lineNo col with
          | none => restartTokLineGo lineNo errLine g rest (col + content.length)
          | some t =>
            match restartTokLineGo lineNo errLine g rest (col + content.length) with
            | .ok ts => .ok (t :: ts)
            | .error e => .error e

/-- Modelled from the spec's words: `tokenize_line` of the restart
reference. -/
def restartTokenizeLine (line : List Char) (lineNo : Nat) : Except LexError (List TomlToken) :=
  match strip line with
  | l => restartTokLineGo lineNo l l.length l 0

/-- Per-line loop of the restart reference. -/
def restartTokLinesGo : Nat → List (List Char) → Except LexError (List TomlToken)
  | _, [] => .ok []
  | i, l :: ls =>
    match restartTokenizeLine l i with
    | .error e => .error e
    | .ok ts =>
      match restartTokLinesGo (i + 1) ls with
      | .error e => .error e
      | .ok rest => .ok (ts ++ rest)

/-- Modelled from the spec's words: `tokenize_content` of the reference
tokenizer that restarts the ordered scan from the first pattern after every
successful match. -/
def restartTokenizeContent (content : String) : Except LexError (List TomlToken) :=
  restartTokLinesGo 1 (splitLines (strip content.data))

/-- Single-cursor formulation of the scan the source actually performs: try
the remaining patterns of the current pass in order, continuing with the
NEXT pattern after each successful match; when the pass's pattern list is
exhausted, fail if nothing matched in the pass, otherwise hand the position
to `next` (the next pass).  `startCol` is the column at which the pass
began, reported in the lex error. -/
def contPass (lineNo : Nat) (errLine : List Char)
    (next : List Char → Nat → Except LexError (List TomlToken)) :
    List PatId → List Char → Nat → Nat → Bool → Except LexError (List TomlToken)
  | [], cur, col, startCol, prog =>
    if prog then next cur col
    else .error ⟨lineNo, startCol, errLine⟩
  | p :: ps, cur, col, startCol, prog =>
    match patMatch p cur with
    | none => contPass lineNo errLine next ps cur col startCol prog
    | some (content, rest2) =>
      match mkToken p content lineNo col with
      | none => contPass lineNo errLine next ps rest2 (col + content.length) startCol true
      | some t =>
        match contPass lineNo errLine next ps rest2 (col + content.length) startCol true with
        | .ok ts => .ok (t :: ts)
        | .error e => .error e

/-- The continue-scan reference line scanner: passes of `contPass`, a new
pass starting with the full `PATTERNS` list only when the previous pass made
progress. -/
def contTokLineGo (lineNo : Nat) (errLine : List Char) : Nat → List Char → Nat →
    Except LexError (List TomlToken)
  | gas, cur, col =>
    match cur with
    | [] => .ok []
    | _ :: _ =>
      contPass lineNo errLine
        (fun rest col2 =>
          match gas with
          | 0 => .ok []
          | g + 1 => contTokLineGo lineNo errLine g rest col2)
        PATTERNS cur col col false

/-- `tokenize_line` of the continue-scan reference. -/
def contTokenizeLine (line : List Char) (lineNo : Nat) : Except LexError (List TomlToken) :=
  match strip line with
  | l => contTokLineGo lineNo l l.length l 0

/-- Per-line loop of the continue-scan reference. -/
def contTokLinesGo : Nat → List (List Char) → Except LexError (List TomlToken)
  | _, [] => .ok []
  | i, l :: ls =>
    match contTokenizeLine l i with
    | .error e => .error e
    | .ok ts =>
      match contTokLinesGo (i + 1) ls with
      | .error e => .error e
      | .ok rest => .ok (ts ++ rest)

/-- `tokenize_content` of the continue-scan reference: after every
successful match the ordered scan resumes from the pattern AFTER the one
that matched, and restarts from the first pattern only at pass boundaries. -/
def contTokenizeContent (content : String) : Except LexError (List TomlToken) :=
  contTokLinesGo 1 (splitLines (strip content.data))

/-- Continuation applied to a finished pass: fail if the pass (together with
the `prog` flag carried into it) made no progress, otherwise hand the
remaining suffix to the next pass and prepend the pass's tokens. -/
def passCont (lineNo : Nat) (errLine : List Char)
    (next : List Char → Nat → Except LexError (List TomlToken))
    (startCol : Nat) (prog : Bool) (po : PassOut) : Except LexError (List TomlToken) :=
  if prog || po.progress then
    match next po.rest po.col with
    | .ok ts => .ok (po.toks ++ ts)
    | .error e => .error e
  else .error ⟨lineNo, startCol, errLine⟩

end TomlTokenizer

/-- The transformation named by the comment claim: delete, from each line of
the input, the text from the first `#` character to the end of the line. -/
def stripHashLine (cs : List Char) : List Char :=
  cs.takeWhile fun c => !(c == '#')

/-- Rejoin lines with a newline character. -/
def joinLines : List (List Char) → List Char
  | [] => []
  | [l] => l
  | l :: ls => l ++ '\n' :: joinLines ls

/-- Modelled from the spec's words: the input with the text from each `#` to
its end of line removed. -/
def removeHashes (content : String) : String :=
  ⟨joinLines ((splitLines content.data).map stripHashLine)⟩

namespace TomlTokenizer

/-- `spanP` splits its input. -/
theorem spanP_append (p : Char → Bool) : ∀ (cs : List Char),
    (spanP p cs).1 ++ (spanP p cs).2 = cs := by
  intro cs
  induction cs with
  | nil => rfl
  | cons c cs ih =>
    cases hc : p c with
    | true =>
      cases hs : spanP p cs with
      | mk a b =>
        rw [hs] at ih
        simp only [spanP, hc, hs, if_true]
        simpa using ih
    | false => simp [spanP, hc]

/-- A successful `stripLit` strips exactly the pattern. -/
theorem stripLit_append : ∀ (ps cs rest : List Char),
    stripLit ps cs = some rest → ps ++ rest = cs := by
  intro ps
  induction ps with
  | nil =>
    intro cs rest h
    injection h with h
    rw [← h]
    rfl
  | cons p ps ih =>
    intro cs rest h
    cases cs with
    | nil => exact absurd h (by simp [stripLit])
    | cons c cs =>
      unfold stripLit at h
      cases hc : p == c with
      | false => rw [hc] at h; exact absurd h (by simp)
      | true =>
        rw [hc] at h
        simp only [if_true] at h
        have h2 := ih cs rest h
        have hpc : p = c := eq_of_beq hc
        rw [← h2, hpc]
        rfl

/-- A successful identifier match splits its input nontrivially. -/
theorem matchIdSplit_splits : ∀ (cs content rest : List Char),
    matchIdSplit cs = some (content, rest) → content ++ rest = cs ∧ content ≠ [] := by
  intro cs content rest h
  unfold matchIdSplit at h
  split at h
  · rename_i c cs2
    cases hc : isIdStart c with
    | false => rw [hc] at h; exact absurd h (by simp)
    | true =>
      rw [hc] at h
      simp only [if_true] at h
      cases hs : spanP isIdChar cs2 with
      | mk a b =>
        rw [hs] at h
        have hab : a ++ b = cs2 := by
          have := spanP_append isIdChar cs2
          rw [hs] at this
          exact this
        dsimp only at h
        injection h with h
        injection h with h1 h2
        subst h1 h2
        exact ⟨by rw [← hab]; rfl, by simp⟩
  · exact absurd h (by simp)

/-- A successful section-tail match splits its input nontrivially. -/
theorem sectTailGo_splits : ∀ (g : Nat) (cs t r : List Char),
    sectTailGo g cs = some (t, r) → t ++ r = cs ∧ t ≠ [] := by
  intro g
  induction g with
  | zero =>
    intro cs t r h
    unfold sectTailGo at h
    split at h
    · injection h with h
      injection h with h1 h2
      subst h1 h2
      exact ⟨rfl, by simp⟩
    all_goals simp_all
  | succ g ih =>
    intro cs t r h
    unfold sectTailGo at h
    split at h
    · injection h with h
      injection h with h1 h2
      subst h1 h2
      exact ⟨rfl, by simp⟩
    · rename_i g2 rest hg
      have hgg : g2 = g := by omega
      subst hgg
      cases hid : matchIdSplit rest with
      | none => rw [hid] at h; exact absurd h (by simp)
      | some pr =>
        obtain ⟨i, r2⟩ := pr
        rw [hid] at h
        simp only at h
        cases hst : sectTailGo g2 r2 with
        | none => rw [hst] at h; exact absurd h (by simp)
        | some pr2 =>
          obtain ⟨t2, r3⟩ := pr2
          rw [hst] at h
          simp only at h
          injection h with h
          injection h with h1 h2
          subst h1 h2
          obtain ⟨hi, _⟩ := matchIdSplit_splits rest i r2 hid
          obtain ⟨ht, _⟩ := ih r2 t2 r3 hst
          constructor
          · rw [← hi, ← ht]
            simp
          · simp
    · exact absurd h (by simp)

/-- A successful section-header match splits its input nontrivially. -/
theorem matchSectSplit_splits : ∀ (cs content rest : List Char),
    matchSectSplit cs = some (content, rest) → content ++ rest = cs ∧ content ≠ [] := by
  intro cs content rest h
  unfold matchSectSplit at h
  split at h
  · rename_i rest0
    cases hid : matchIdSplit rest0 with
      | none => rw [hid] at h; exact absurd h (by simp)
      | some pr =>
        obtain ⟨i, r2⟩ := pr
        rw [hid] at h
        simp only at h
        cases hst : sectTailGo r2.length r2 with
        | none => rw [hst] at h; exact absurd h (by simp)
        | some pr2 =>
          obtain ⟨t2, r3⟩ := pr2
          rw [hst] at h
          simp only at h
          injection h with h
          injection h with h1 h2
          subst h1 h2
          obtain ⟨hi, _⟩ := matchIdSplit_splits rest0 i r2 hid
          obtain ⟨ht, _⟩ := sectTailGo_splits r2.length r2 t2 r3 hst
          constructor
          · rw [← hi, ← ht]
            simp
          · simp
  · exact absurd h (by simp)

/-- `dropDigits` consumes exactly `n` characters of a suffix. -/
theorem dropDigits_suffix : ∀ (n : Nat) (cs r : List Char),
    dropDigits n cs = some r → r <:+ cs ∧ r.length + n = cs.length := by
  intro n
  induction n with
  | zero =>
    intro cs r h
    injection h with h
    subst h
    exact ⟨List.suffix_refl cs, rfl⟩
  | succ n ih =>
    intro cs r h
    cases cs with
    | nil => exact absurd h (by simp [dropDigits])
    | cons c cs =>
      unfold dropDigits at h
      cases hc : c.isDigit with
      | false => rw [hc] at h; exact absurd h (by simp)
      | true =>
        rw [hc] at h
        simp only [if_true] at h
        obtain ⟨hs, hl⟩ := ih cs r h
        exact ⟨hs.trans (List.suffix_cons c cs), by simp [← hl]; omega⟩

/-- `expectC` consumes exactly one character of a suffix. -/
theorem expectC_suffix : ∀ (c : Char) (cs r : List Char),
    expectC c cs = some r → r <:+ cs ∧ r.length + 1 = cs.length := by
  intro c cs r h
  unfold expectC at h
  split at h
  · rename_i d rest
    cases hc : d == c with
    | false => rw [hc] at h; exact absurd h (by simp)
    | true =>
      rw [hc] at h
      simp only [if_true] at h
      injection h with h
      subst h
      exact ⟨List.suffix_cons d rest, by simp⟩
  · exact absurd h (by simp)

/-- The remainder of a successful date-time core match is a strictly
shorter suffix. -/
theorem dtCore_suffix : ∀ (cs r : List Char),
    dtCore cs = some r → r <:+ cs ∧ r.length < cs.length := by
  intro cs r h
  unfold dtCore at h
  simp only [Option.bind_eq_bind, Option.bind_eq_some] at h
  obtain ⟨r1, h1, r2, h2, r3, h3, r4, h4, r5, h5, r6, h6, r7, h7, r8, h8, r9, h9, r10,
    h10, r11, h11, htz⟩ := h
  obtain ⟨s1, l1⟩ := dropDigits_suffix 4 cs r1 h1
  obtain ⟨s2, l2⟩ := expectC_suffix '-' r1 r2 h2
  obtain ⟨s3, l3⟩ := dropDigits_suffix 2 r2 r3 h3
  obtain ⟨s4, l4⟩ := expectC_suffix '-' r3 r4 h4
  obtain ⟨s5, l5⟩ := dropDigits_suffix 2 r4 r5 h5
  obtain ⟨s6, l6⟩ := expectC_suffix 'T' r5 r6 h6
  obtain ⟨s7, l7⟩ := dropDigits_suffix 2 r6 r7 h7
  obtain ⟨s8, l8⟩ := expectC_suffix ':' r7 r8 h8
  obtain ⟨s9, l9⟩ := dropDigits_suffix 2 r8 r9 h9
  obtain ⟨s10, l10⟩ := expectC_suffix ':' r9 r10 h10
  obtain ⟨s11, l11⟩ := dropDigits_suffix 2 r10 r11 h11
  have base : r11 <:+ cs := by
    exact s11.trans (s10.trans (s9.trans (s8.trans (s7.trans (s6.trans (s5.trans
      (s4.trans (s3.trans (s2.trans s1)))))))))
  have baseLen : r11.length + 19 = cs.length := by omega
  have tz : r <:+ r11 ∧ r.length < r11.length := by
    split at htz
    · rename_i rest11
      injection htz with h
      subst h
      exact ⟨List.suffix_cons 'Z' rest11, by simp⟩
    · rename_i c11 rest11 hne
      cases hpm : (c11 == '+' || c11 == '-') with
      | false => rw [hpm] at htz; exact absurd htz (by simp)
      | true =>
        rw [hpm] at htz
        simp only [if_true] at htz
        cases hd1 : dropDigits 2 rest11 with
        | none => rw [hd1] at htz; exact absurd htz (by simp)
        | some r2 =>
          rw [hd1] at htz
          simp only at htz
          obtain ⟨sd1, ld1⟩ := dropDigits_suffix 2 rest11 r2 hd1
          split at htz
          · rename_i r3
            obtain ⟨sd2, ld2⟩ := dropDigits_suffix 2 r3 r htz
            have hsub : r <:+ rest11 := by
              exact (sd2.trans (List.suffix_cons ':' r3)).trans sd1
            refine ⟨hsub.trans (List.suffix_cons c11 rest11), ?_⟩
            simp only [List.length_cons] at ld1 ⊢
            omega
          · obtain ⟨sd2, ld2⟩ := dropDigits_suffix 2 r2 r htz
            refine ⟨(sd2.trans sd1).trans (List.suffix_cons c11 rest11), ?_⟩
            simp only [List.length_cons]
            omega
    · exact absurd htz (by simp)
  refine ⟨tz.1.trans base, ?_⟩
  have h2 := tz.2
  omega

/-- Faithfulness of the pass bookkeeping: every successful anchored pattern
match splits its input into the matched text and the remainder, and the
matched text is nonempty.  Hence a pass with a match strictly advances the
cursor, so the model's `progress` flag coincides with the source's
`current_offset == offset` test. -/
theorem patMatch_splits : ∀ (p : PatId) (cs content rest : List Char),
    patMatch p cs = some (content, rest) → content ++ rest = cs ∧ content ≠ [] := by
  intro p cs content rest h
  cases p with
  | bool =>
    unfold patMatch at h
    dsimp only at h
    cases ht : stripLit "true".data cs with
    | some r1 =>
      rw [ht] at h
      dsimp only at h
      injection h with h
      injection h with h1 h2
      subst h1 h2
      exact ⟨stripLit_append _ cs r1 ht, by decide⟩
    | none =>
      rw [ht] at h
      dsimp only at h
      cases hf : stripLit "false".data cs with
      | some r1 =>
        rw [hf] at h
        dsimp only at h
        injection h with h
        injection h with h1 h2
        subst h1 h2
        exact ⟨stripLit_append _ cs r1 hf, by decide⟩
      | none =>
        rw [hf] at h
        dsimp only at h
        exact absurd h (by simp)
  | comment =>
    unfold patMatch at h
    dsimp only at h
    split at h
    · rename_i tail
      injection h with h
      injection h with h1 h2
      subst h1 h2
      exact ⟨by simp, by simp⟩
    · exact absurd h (by simp)
  | id => exact matchIdSplit_splits cs content rest h
  | sect => exact matchSectSplit_splits cs content rest h
  | string =>
    unfold patMatch at h
    dsimp only at h
    split at h
    · rename_i rest0
      cases hsp : spanP (fun c => !(c == '"')) rest0 with
      | mk body more =>
        rw [hsp] at h
        dsimp only at h
        split at h
        · rename_i rest2
          injection h with h
          injection h with h1 h2
          subst h1 h2
          have hb : body ++ '"' :: rest2 = rest0 := by
            have := spanP_append (fun c => !(c == '"')) rest0
            rw [hsp] at this
            exact this
          constructor
          · rw [← hb]
            simp
          · simp
        · exact absurd h (by simp)
    · exact absurd h (by simp)
  | whitespace =>
    unfold patMatch at h
    dsimp only at h
    cases hsp : spanP isWsChar cs with
    | mk w r1 =>
      rw [hsp] at h
      cases w with
      | nil =>
        dsimp only at h
        exact absurd h (by simp)
      | cons c0 w0 =>
        dsimp only at h
        injection h with h
        injection h with h1 h2
        subst h1 h2
        have hb : (c0 :: w0) ++ r1 = cs := by
          have := spanP_append isWsChar cs
          rw [hsp] at this
          exact this
        exact ⟨hb, by simp⟩
  | literal =>
    unfold patMatch at h
    dsimp only at h
    split at h
    · rename_i c0 rest0
      cases hc : (c0 == ',' || c0 == '[' || c0 == ']' || c0 == '=') with
      | false => rw [hc] at h; exact absurd h (by simp)
      | true =>
        rw [hc] at h
        simp only [if_true] at h
        injection h with h
        injection h with h1 h2
        subst h1 h2
        exact ⟨rfl, by simp⟩
    · exact absurd h (by simp)
  | datetime =>
    unfold patMatch at h
    dsimp only at h
    unfold matchDatetimeSplit at h
    cases hdt : dtCore cs with
    | none => rw [hdt] at h; exact absurd h (by simp)
    | some r1 =>
      rw [hdt] at h
      dsimp only at h
      injection h with h
      injection h with h1 h2
      subst h1 h2
      obtain ⟨hsuf, hlt⟩ := dtCore_suffix cs r1 hdt
      obtain ⟨pre, hpre⟩ := hsuf
      have hl : cs.length - r1.length = pre.length := by
        rw [← hpre]
        simp
      have htake : cs.take (cs.length - r1.length) = pre := by
        rw [hl, ← hpre]
        exact List.take_left pre r1
      constructor
      · rw [htake, hpre]
      · rw [htake]
        intro hnil
        subst hnil
        simp only [List.nil_append] at hpre
        rw [hpre] at hlt
        omega
  | float =>
    unfold patMatch at h
    dsimp only at h
    cases hs1 : spanP Char.isDigit cs with
    | mk d1 r1 =>
      rw [hs1] at h
      cases d1 with
      | nil =>
        dsimp only at h
        exact absurd h (by simp)
      | cons c0 d0 =>
        dsimp only at h
        split at h
        · rename_i r2
          cases hs2 : spanP Char.isDigit r2 with
          | mk d2 r3 =>
            rw [hs2] at h
            cases d2 with
            | nil =>
              dsimp only at h
              exact absurd h (by simp)
            | cons c1 d3 =>
              dsimp only at h
              injection h with h
              injection h with h1 h2
              subst h1 h2
              have hb1 : (c0 :: d0) ++ '.' :: r2 = cs := by
                have := spanP_append Char.isDigit cs
                rw [hs1] at this
                exact this
              have hb2 : (c1 :: d3) ++ r3 = r2 := by
                have := spanP_append Char.isDigit r2
                rw [hs2] at this
                exact this
              constructor
              · rw [← hb1, ← hb2]
                simp
              · simp
        · exact absurd h (by simp)
  | int =>
    unfold patMatch at h
    dsimp only at h
    cases hs : spanP Char.isDigit cs with
    | mk d r1 =>
      rw [hs] at h
      cases d with
      | nil =>
        dsimp only at h
        exact absurd h (by simp)
      | cons c0 d0 =>
        dsimp only at h
        injection h with h
        injection h with h1 h2
        subst h1 h2
        have hb : (c0 :: d0) ++ r1 = cs := by
          have := spanP_append Char.isDigit cs
          rw [hs] at this
          exact this
        exact ⟨hb, by simp⟩

/-- The single-cursor pass agrees with the source's pass followed by the
pass continuation. -/
theorem contPass_eq (lineNo : Nat) (errLine : List Char)
    (next : List Char → Nat → Except LexError (List TomlToken)) (startCol : Nat) :
    ∀ (rem : List PatId) (cur : List Char) (col : Nat) (prog : Bool),
      contPass lineNo errLine next rem cur col startCol prog =
        passCont lineNo errLine next startCol prog (runPass lineNo rem cur col) := by
  intro rem
  induction rem with
  | nil =>
    intro cur col prog
    simp only [contPass, runPass, passCont, Bool.or_false]
    cases prog with
    | false => rfl
    | true =>
      simp only [if_true]
      cases next cur col <;> rfl
  | cons p ps ih =>
    intro cur col prog
    simp only [contPass, runPass]
    cases hm : patMatch p cur with
    | none =>
      dsimp only
      exact ih cur col prog
    | some pr =>
      obtain ⟨content, rest2⟩ := pr
      dsimp only
      cases hk : mkToken p content lineNo col with
      | none =>
        dsimp only
        rw [ih rest2 (col + content.length) true]
        cases hr : runPass lineNo ps rest2 (col + content.length) with
        | mk toks rest col2 prog2 =>
          simp [passCont]
      | some t =>
        dsimp only
        rw [ih rest2 (col + content.length) true]
        cases hr : runPass lineNo ps rest2 (col + content.length) with
        | mk toks rest col2 prog2 =>
          simp only [passCont, Bool.true_or, Bool.or_true, if_true]
          cases next rest col2 <;> rfl

/-- Definitional unfolding of `tokLineGo` on a nonempty suffix at gas 0,
with the pass result referred to through projections so that case analysis
on the pass can abstract every occurrence. -/
theorem tokLineGo_zero_cons (lineNo : Nat) (errLine : List Char) (c : Char)
    (cs : List Char) (col : Nat) :
    tokLineGo lineNo errLine 0 (c :: cs) col =
      (if (runPass lineNo PATTERNS (c :: cs) col).progress then
        Except.ok (runPass lineNo PATTERNS (c :: cs) col).toks
      else .error ⟨lineNo, col, errLine⟩) := rfl

/-- Definitional unfolding of `tokLineGo` on a nonempty suffix at positive
gas. -/
theorem tokLineGo_succ_cons (lineNo : Nat) (errLine : List Char) (g : Nat) (c : Char)
    (cs : List Char) (col : Nat) :
    tokLineGo lineNo errLine (g + 1) (c :: cs) col =
      (if (runPass lineNo PATTERNS (c :: cs) col).progress then
        match tokLineGo lineNo errLine g (runPass lineNo PATTERNS (c :: cs) col).rest
            (runPass lineNo PATTERNS (c :: cs) col).col with
        | .ok ts => .ok ((runPass lineNo PATTERNS (c :: cs) col).toks ++ ts)
        | .error e => .error e
      else .error ⟨lineNo, col, errLine⟩) := rfl

/-- Definitional unfolding of `contTokLineGo` on a nonempty suffix at
gas 0. -/
theorem contTokLineGo_zero_cons (lineNo : Nat) (errLine : List Char) (c : Char)
    (cs : List Char) (col : Nat) :
    contTokLineGo lineNo errLine 0 (c :: cs) col =
      contPass lineNo errLine (fun _ _ => .ok []) PATTERNS (c :: cs) col col false := rfl

/-- Definitional unfolding of `contTokLineGo` on a nonempty suffix at
positive gas. -/
theorem contTokLineGo_succ_cons (lineNo : Nat) (errLine : List Char) (g : Nat) (c : Char)
    (cs : List Char) (col : Nat) :
    contTokLineGo lineNo errLine (g + 1) (c :: cs) col =
      contPass lineNo errLine (fun rest col2 => contTokLineGo lineNo errLine g rest col2)
        PATTERNS (c :: cs) col col false := rfl

/-- The continue-scan reference line loop agrees with the source's line
loop. -/
theorem contTokLineGo_eq (lineNo : Nat) (errLine : List Char) :
    ∀ (gas : Nat) (cur : List Char) (col : Nat),
      contTokLineGo lineNo errLine gas cur col = tokLineGo lineNo errLine gas cur col := by
  intro gas
  induction gas with
  | zero =>
    intro cur col
    cases cur with
    | nil => rfl
    | cons c cs =>
      rw [contTokLineGo_zero_cons, tokLineGo_zero_cons, contPass_eq]
      cases hr : runPass lineNo PATTERNS (c :: cs) col with
      | mk toks rest col2 prog2 =>
        cases prog2 <;> simp [passCont]
  | succ g ih =>
    intro cur col
    cases cur with
    | nil => rfl
    | cons c cs =>
      rw [contTokLineGo_succ_cons, tokLineGo_succ_cons, contPass_eq]
      cases hr : runPass lineNo PATTERNS (c :: cs) col with
      | mk toks rest col2 prog2 =>
        cases prog2 with
        | false => simp [passCont]
        | true =>
          simp only [passCont, Bool.false_or]
          rw [ih rest col2]

/-- The continue-scan reference agrees with the source on every line. -/
theorem contTokenizeLine_eq (line : List Char) (lineNo : Nat) :
    contTokenizeLine line lineNo = tokenize_line line lineNo := by
  simp only [contTokenizeLine, tokenize_line]
  exact contTokLineGo_eq lineNo (strip line) (strip line).length (strip line) 0

/-- The continue-scan reference agrees with the source on every line list. -/
theorem contTokLinesGo_eq : ∀ (ls : List (List Char)) (i : Nat),
    contTokLinesGo i ls = tokLinesGo i ls := by
  intro ls
  induction ls with
  | nil => intro i; rfl
  | cons l ls ih =>
    intro i
    simp only [contTokLinesGo, tokLinesGo, contTokenizeLine_eq, ih]

/-- The continue-scan reference agrees with the source on every content. -/
theorem contTokenizeContent_eq (content : String) :
    tokenize_content content = contTokenizeContent content := by
  simp only [tokenize_content, contTokenizeContent, contTokLinesGo_eq]

end TomlTokenizer

namespace TomlParser

/-- Feeding a token list is the same as feeding it with all comment tokens
removed: the parse loop itself skips them. -/
theorem feedAll_skip_comments :
    ∀ (ts : List TomlToken) (s : PState),
      feedAll s ts = feedAll s (ts.filter fun t => !(t.type == TokType.comment)) := by
  intro ts
  induction ts with
  | nil => intro s; rfl
  | cons t ts ih =>
    intro s
    cases h : t.type == TokType.comment with
    | true =>
      simp only [feedAll, List.filter_cons, h, Bool.not_true, Bool.false_eq_true, if_false,
        if_true]
      exact ih s
    | false =>
      simp only [feedAll, List.filter_cons, h, Bool.not_false, Bool.false_eq_true, if_false,
        if_true]
      cases feed s t with
      | error e => rfl
      | ok s2 => exact ih s2

/-- Comment tokens have no effect on the parse result. -/
theorem parse_skip_comments (ts : List TomlToken) :
    parse ts = parse (ts.filter fun t => !(t.type == TokType.comment)) := by
  unfold parse
  have h := fun s => feedAll_skip_comments ts s
  simp only [h]

/-- `combine_values '['` pops the stacked element values (which sit on the
stack in reverse source order) down to the opening-bracket sentinel and
rebuilds them in source order. -/
theorem combineStop_scalars (ys : List PyVal) :
    ∀ (acc : List PyVal) (stack : List TomlToken),
      combineStop (.lit '[') (ys.map scalarTok ++ openTok :: stack) acc =
        .ok (⟨.list, .pList (ys.reverse ++ acc), none, none⟩, stack) := by
  induction ys with
  | nil => intro acc stack; rfl
  | cons y ys ih =>
    intro acc stack
    show combineStop (.lit '[') (ys.map scalarTok ++ openTok :: stack) (y :: acc) =
      .ok (⟨.list, .pList ((y :: ys).reverse ++ acc), none, none⟩, stack)
    rw [ih (y :: acc) stack]
    simp only [List.reverse_cons, List.append_assoc, List.singleton_append]

/-- `combine_values '['` on a stack holding the reversed element tokens
above the sentinel yields the synthetic list token with the elements in
source order. -/
theorem combineStop_list (xs : List PyVal) (stack : List TomlToken) :
    combineStop (.lit '[') ((xs.map scalarTok).reverse ++ openTok :: stack) [] =
      .ok (⟨.list, .pList xs, none, none⟩, stack) := by
  have h := combineStop_scalars xs.reverse [] stack
  simpa using h

/-- Feeding the element tokens of a list pushes the element values onto the
value stack in reverse source order (commas are ignored). -/
theorem feedAll_scalars (xs : List PyVal) :
    ∀ (vs : List TomlToken) (rest : List TomlToken),
      feedAll (midState vs) (listElemToks xs ++ rest) =
        feedAll (midState ((xs.map scalarTok).reverse ++ vs)) rest := by
  induction xs with
  | nil => intro vs rest; rfl
  | cons x xs ih =>
    intro vs rest
    show feedAll (midState (scalarTok x :: vs)) (listElemToks xs ++ rest) =
      feedAll (midState (((x :: xs).map scalarTok).reverse ++ vs)) rest
    rw [ih (scalarTok x :: vs) rest]
    simp only [List.map_cons, List.reverse_cons, List.append_assoc, List.singleton_append]

/-- `StatusBuildList._on_exit` on the list-building state: combine down to
the sentinel and push the synthetic list token back. -/
theorem on_exit_mid (vs : List TomlToken) (lt : TomlToken) (stack : List TomlToken)
    (hcs : combineStop (TokType.lit '[') vs [] = .ok (lt, stack)) :
    on_exit ⟨[], [], [.buildValue, .buildSection], [.pStr []], [openTok], vs,
      .buildList, .pStr "a".data, .pStr []⟩ =
      .ok ⟨[], [], [.buildValue, .buildSection], [.pStr []], [openTok], lt :: stack,
        .buildList, .pStr "a".data, .pStr []⟩ := by
  unfold on_exit
  dsimp only
  rw [hcs]

/-- `exit` from the list-building state: run the list's exit handler and
resume `StatusBuildValue`. -/
theorem pexit_mid (vs : List TomlToken) (lt : TomlToken) (stack : List TomlToken)
    (hcs : combineStop (TokType.lit '[') vs [] = .ok (lt, stack)) :
    pexit (midState vs) = .ok (afterListState (lt :: stack)) := by
  show (match on_exit ⟨[], [], [.buildValue, .buildSection], [.pStr []], [openTok], vs,
      .buildList, .pStr "a".data, .pStr []⟩ with
    | .error e => Except.error e
    | .ok s2 =>
      match s2.statusHistory with
      | [] => Except.ok s2
      | last :: rest2 => enter { s2 with statusHistory := rest2 } last .noA) =
    .ok (afterListState (lt :: stack))
  rw [on_exit_mid vs lt stack hcs]
  rfl

/-- Feeding `]` in the list-building state closes the list. -/
theorem feed_close (vs : List TomlToken) (lt : TomlToken) (stack : List TomlToken)
    (hcs : combineStop (TokType.lit '[') vs [] = .ok (lt, stack)) :
    feed (midState vs) closeTok = .ok (afterListState (lt :: stack)) := by
  show feedLoop closeTok 4
      (match pexit (midState vs) with
       | .ok s2 => FeedOut.done s2
       | .error e => FeedOut.fail e) =
    .ok (afterListState (lt :: stack))
  rw [pexit_mid vs lt stack hcs]
  rfl

/-- For every list expression, the parsed sequence holds the element values
exactly in the order they are written. -/
theorem parse_list_order (xs : List PyVal) :
    parse (listExprToks xs) = .ok (.pDict [(.pStr "a".data, .pList xs)]) := by
  have hfeed : feedAll ⟨[], [], [.buildSection], [.pStr []], [], [], .buildSection,
      .pNone, .pStr []⟩ (listExprToks xs) =
      .ok (afterListState [⟨.list, .pList xs, none, none⟩]) := by
    show feedAll (midState [openTok]) (listElemToks xs ++ [closeTok]) =
      .ok (afterListState [⟨.list, .pList xs, none, none⟩])
    rw [feedAll_scalars xs [openTok] [closeTok]]
    show (match feed (midState ((xs.map scalarTok).reverse ++ [openTok])) closeTok with
      | .error e => Except.error e
      | .ok s2 => feedAll s2 []) =
      .ok (afterListState [⟨.list, .pList xs, none, none⟩])
    rw [feed_close ((xs.map scalarTok).reverse ++ [openTok])
      ⟨.list, .pList xs, none, none⟩ [] (combineStop_list xs [])]
    rfl
  have hp : parse (listExprToks xs) =
      (match feedAll ⟨[], [], [.buildSection], [.pStr []], [], [], .buildSection,
        .pNone, .pStr []⟩ (listExprToks xs) with
      | .error e => Except.error e
      | .ok s2 =>
        match feed s2 ⟨.eof, .pStr [], none, none⟩ with
        | .error e => Except.error e
        | .ok s3 =>
          match pexit s3 with
          | .error e => Except.error e
          | .ok s4 => .ok (.pDict s4.result)) := rfl
  rw [hp, hfeed]
  rfl

/-- For every list expression left unclosed at end of input, the pending
assignment is silently lost. -/
theorem parse_unclosed_list (xs : List PyVal) :
    parse (idTokA :: eqTok :: openTok :: listElemToks xs) = .ok (.pDict []) := by
  have hfeed : feedAll ⟨[], [], [.buildSection], [.pStr []], [], [], .buildSection,
      .pNone, .pStr []⟩ (idTokA :: eqTok :: openTok :: listElemToks xs) =
      .ok (midState ((xs.map scalarTok).reverse ++ [openTok])) := by
    show feedAll (midState [openTok]) (listElemToks xs) =
      .ok (midState ((xs.map scalarTok).reverse ++ [openTok]))
    rw [← List.append_nil (listElemToks xs), feedAll_scalars xs [openTok] []]
    rfl
  have hp : parse (idTokA :: eqTok :: openTok :: listElemToks xs) =
      (match feedAll ⟨[], [], [.buildSection], [.pStr []], [], [], .buildSection,
        .pNone, .pStr []⟩ (idTokA :: eqTok :: openTok :: listElemToks xs) with
      | .error e => Except.error e
      | .ok s2 =>
        match feed s2 ⟨.eof, .pStr [], none, none⟩ with
        | .error e => Except.error e
        | .ok s3 =>
          match pexit s3 with
          | .error e => Except.error e
          | .ok s4 => .ok (.pDict s4.result)) := rfl
  rw [hp, hfeed]
  show (match pexit (midState ((xs.map scalarTok).reverse ++ [openTok])) with
    | .error e => Except.error e
    | .ok s4 => Except.ok (PyVal.pDict s4.result)) = .ok (.pDict [])
  rw [pexit_mid ((xs.map scalarTok).reverse ++ [openTok])
    ⟨.list, .pList xs, none, none⟩ [] (combineStop_list xs [])]
  rfl

end TomlParser

end Tomless

open Tomless

/-- C1: the claim says only lex errors surface and all other anomalies are
absorbed into a best-effort tree, in particular on `"x = 1\n[x]\ny = 2"`.
In fact on that input `sync_result` descends the section path `x` into the
scalar `1` and the unguarded `parent.update` raises an `AttributeError`,
which escapes `parse_content`: the code contradicts the spec's stated
propagation policy. -/
theorem C1_section_over_scalar_crashes :
    TomlParser.parse_content "x = 1\n[x]\ny = 2" =
      .error (.runtime .attributeError) := rfl

/-- C2: parsing a single scalar assignment yields the key bound to the
decoded value, for each scalar kind: integer, float, boolean, quoted
string; and at token level, an assignment of an arbitrary scalar value
token binds the key to exactly that value. -/
theorem C2_scalar_assignments :
    TomlParser.parse_content "a = 1" = .ok (.pDict [(.pStr "a".data, .pInt 1)]) ∧
    TomlParser.parse_content "a = 1.5" = .ok (.pDict [(.pStr "a".data, .pFloat "1.5".data)]) ∧
    TomlParser.parse_content "a = true" = .ok (.pDict [(.pStr "a".data, .pBool true)]) ∧
    TomlParser.parse_content "a = \"hi\"" = .ok (.pDict [(.pStr "a".data, .pStr "hi".data)]) ∧
    (∀ v : PyVal,
      TomlParser.parse [TomlParser.idTokA, TomlParser.eqTok, TomlParser.scalarTok v] =
        .ok (.pDict [(.pStr "a".data, v)])) :=
  ⟨rfl, rfl, rfl, rfl, fun _ => rfl⟩

/-- C3: assignments before the first section header land at the result-tree
root, assignments after a header land under that section until the next
header, and a dotted header creates a chain of nested mappings:
`"[a.b]\nx = 1"` parses to `{a: {b: {x: 1}}}`, and
`"r = 0\n[s]\nx = 1\n[t]\ny = 2"` parses to
`{r: 0, s: {x: 1}, t: {y: 2}}`; at token level this holds for every
assigned value. -/
theorem C3_section_nesting :
    TomlParser.parse_content "[a.b]\nx = 1" =
      .ok (.pDict [(.pStr "a".data,
        .pDict [(.pStr "b".data, .pDict [(.pStr "x".data, .pInt 1)])])]) ∧
    TomlParser.parse_content "r = 0\n[s]\nx = 1\n[t]\ny = 2" =
      .ok (.pDict [(.pStr "r".data, .pInt 0),
                   (.pStr "s".data, .pDict [(.pStr "x".data, .pInt 1)]),
                   (.pStr "t".data, .pDict [(.pStr "y".data, .pInt 2)])]) ∧
    (∀ v : PyVal,
      TomlParser.parse [TomlParser.sectTokAB, TomlParser.idTokX, TomlParser.eqTok,
          TomlParser.scalarTok v] =
        .ok (.pDict [(.pStr "a".data,
          .pDict [(.pStr "b".data, .pDict [(.pStr "x".data, v)])])])) ∧
    (∀ v1 v2 : PyVal,
      TomlParser.parse [TomlParser.idTokA, TomlParser.eqTok, TomlParser.scalarTok v1,
          TomlParser.sectTokS, TomlParser.idTokA, TomlParser.eqTok, TomlParser.scalarTok v2] =
        .ok (.pDict [(.pStr "a".data, v1),
                     (.pStr "s".data, .pDict [(.pStr "a".data, v2)])])) :=
  ⟨rfl, rfl, fun _ => rfl, fun _ _ => rfl⟩

/-- C4: list elements appear in the result exactly in source order — for
EVERY sequence of element values, the parsed list expression `a = [x1,...]`
yields exactly that sequence, neither reversed nor sorted — including
recursively for nested lists and witnessed concretely by the unsorted
`[2,3,1]`. -/
theorem C4_list_order :
    (∀ xs : List PyVal,
      TomlParser.parse (TomlParser.listExprToks xs) =
        .ok (.pDict [(.pStr "a".data, .pList xs)])) ∧
    TomlParser.parse_content "a = [1,2,3]" =
      .ok (.pDict [(.pStr "a".data, .pList [.pInt 1, .pInt 2, .pInt 3])]) ∧
    TomlParser.parse_content "a = [[1,2],[3,4]]" =
      .ok (.pDict [(.pStr "a".data,
        .pList [.pList [.pInt 1, .pInt 2], .pList [.pInt 3, .pInt 4]])]) ∧
    TomlParser.parse_content "a = [2,3,1]" =
      .ok (.pDict [(.pStr "a".data, .pList [.pInt 2, .pInt 3, .pInt 1])]) :=
  ⟨TomlParser.parse_list_order, rfl, rfl, rfl⟩

/-- C5 counterexample: the tokenizer does NOT produce the same token
sequence as the reference tokenizer that restarts the ordered pattern scan
from the first pattern after every successful match.  On `"x = truefalse"`
the source's scan, having matched the boolean pattern at the start of
`truefalse`, continues with the comment and identifier patterns at the
advanced offset and emits an `id` token for `false`, while the restart
reference emits a second `bool` token. -/
theorem C5_counterexample :
    TomlTokenizer.tokenize_content "x = truefalse" ≠
      TomlTokenizer.restartTokenizeContent "x = truefalse" := by
  intro h
  exact absurd (congrArg TomlTokenizer.okTokTypes h) (by decide)

/-- C5 (amended): at each offset, the first pattern of the REMAINING ordered
list whose anchored match succeeds wins; after a successful match the scan
continues with the next pattern rather than restarting, and it restarts from
the first pattern only at the start of the next pass of the while loop.
Equivalently, `tokenize_content` produces the same token sequence as a
reference tokenizer with a single pattern cursor that resumes after each
match and resets only at pass boundaries (`contTokenizeContent`); on
`"x = truefalse"` this yields `id`, `=`, `bool`, `id`, not the restart
reference's `id`, `=`, `bool`, `bool`. -/
theorem C5_continue_scan :
    (∀ content : String,
      TomlTokenizer.tokenize_content content =
        TomlTokenizer.contTokenizeContent content) ∧
    TomlTokenizer.okTokTypes (TomlTokenizer.tokenize_content "x = truefalse") =
      [.id, .lit '=', .bool, .id] ∧
    TomlTokenizer.okTokTypes (TomlTokenizer.restartTokenizeContent "x = truefalse") =
      [.id, .lit '=', .bool, .bool] :=
  ⟨TomlTokenizer.contTokenizeContent_eq, rfl, rfl⟩

/-- C6 counterexample: the lex error's coordinates are NOT relative to the
original input.  On `"\n   @"` the offending `@` sits on line 2 of the
original input at column 3 (the original lines are `""` and `"   @"`), but
`tokenize_content` strips the whole content before splitting it into lines
and strips each line before scanning, so it reports line 1, column 0, line
text `"@"`. -/
theorem C6_counterexample :
    TomlTokenizer.tokenize_content "\n   @" = .error ⟨1, 0, "@".data⟩ ∧
    splitLines ("\n   @").data = [[], "   @".data] ∧
    TomlTokenizer.tokenize_content "\n   @" ≠ .error ⟨2, 3, "   @".data⟩ := by
  refine ⟨rfl, rfl, ?_⟩
  intro h
  have h1 : TomlTokenizer.tokenize_content "\n   @" = .error ⟨1, 0, "@".data⟩ := rfl
  rw [h1] at h
  injection h with h2
  exact absurd h2 (by decide)

/-- C6 (amended): when no pattern matches at a position, tokenization fails
with a lex error whose 1-indexed line number refers to the lines of the
whitespace-stripped content, whose column offset refers to the
whitespace-stripped line, and which carries that stripped line's text; the
failure aborts the entire parse, so no token stream or result tree is
produced (for inputs with no leading whitespace these coordinates coincide
with the original ones). -/
theorem C6_stripped_positions :
    TomlTokenizer.tokenize_content "@" = .error ⟨1, 0, "@".data⟩ ∧
    TomlParser.parse_content "a = 1\nb @" = .error (.lex ⟨2, 2, "b @".data⟩) ∧
    TomlParser.parse_content "\n   @" = .error (.lex ⟨1, 0, "@".data⟩) :=
  ⟨rfl, rfl, rfl⟩

/-- C7 counterexample: deleting the text from each `#` to its end of line
does NOT always preserve the parse, because a `#` inside a quoted string is
string content, not a comment: `a = "x#y"` parses to `{a: "x#y"}`, while
the textually stripped input `a = "x` has an unterminated quote and dies
with a lex error. -/
theorem C7_counterexample :
    TomlParser.parse_content "a = \"x#y\"" ≠
      TomlParser.parse_content (removeHashes "a = \"x#y\"") := by
  intro h
  have h1 : TomlParser.parse_content "a = \"x#y\"" =
      .ok (.pDict [(.pStr "a".data, .pStr "x#y".data)]) := rfl
  have h2 : TomlParser.parse_content (removeHashes "a = \"x#y\"") =
      .error (.lex ⟨1, 4, "a = \"x".data⟩) := rfl
  rw [h1, h2] at h
  exact Except.noConfusion h

/-- C7 (amended): comment tokens are excluded from parsing and have no
effect on the result tree — the parse loop skips them, so any token list
parses identically with its comment tokens removed — and a `#` reached by
the scanner outside a quoted string turns the rest of the line into one
comment token, so such comment text never affects the result; but a `#`
inside a quoted string is part of the string value, so textual
`#`-to-end-of-line removal does not in general preserve the parse. -/
theorem C7_comments :
    (∀ (ts : List TomlToken),
      TomlParser.parse ts =
        TomlParser.parse (ts.filter fun t => !(t.type == TokType.comment))) ∧
    TomlParser.parse_content "a = 1 # note" = .ok (.pDict [(.pStr "a".data, .pInt 1)]) ∧
    TomlParser.parse_content "a = 1 # note" = TomlParser.parse_content "a = 1" ∧
    TomlParser.parse_content "a = \"x#y\"" =
      .ok (.pDict [(.pStr "a".data, .pStr "x#y".data)]) :=
  ⟨TomlParser.parse_skip_comments, rfl, rfl, rfl⟩

/-- C8: an assignment whose `=` is followed by no value raises nothing: the
empty-value condition is only logged, the key stays absent from the result
tree, and later statements parse normally (at token level, for every value
assigned by the following statement). -/
theorem C8_empty_value_assignment :
    TomlParser.parse_content "a =" = .ok (.pDict []) ∧
    TomlParser.parse_content "a =\nb = 2" = .ok (.pDict [(.pStr "b".data, .pInt 2)]) ∧
    (∀ v : PyVal,
      TomlParser.parse [TomlParser.idTokA, TomlParser.eqTok, TomlParser.idTokB,
          TomlParser.eqTok, TomlParser.scalarTok v] =
        .ok (.pDict [(.pStr "b".data, v)])) :=
  ⟨rfl, rfl, fun _ => rfl⟩

/-- C9: a later assignment to the same key at the same path silently
overwrites the earlier one, with no duplicate-key error — at token level
for EVERY pair of assigned values — at the root, within one section's
pending context, and across repeated headers naming the same section. -/
theorem C9_duplicate_overwrite :
    (∀ v1 v2 : PyVal,
      TomlParser.parse [TomlParser.idTokA, TomlParser.eqTok, TomlParser.scalarTok v1,
          TomlParser.idTokA, TomlParser.eqTok, TomlParser.scalarTok v2] =
        .ok (.pDict [(.pStr "a".data, v2)])) ∧
    TomlParser.parse_content "a = 1\na = 2" = .ok (.pDict [(.pStr "a".data, .pInt 2)]) ∧
    TomlParser.parse_content "[s]\na = 1\na = 2" =
      .ok (.pDict [(.pStr "s".data, .pDict [(.pStr "a".data, .pInt 2)])]) ∧
    TomlParser.parse_content "[s]\na = 1\n[s]\na = 2" =
      .ok (.pDict [(.pStr "s".data, .pDict [(.pStr "a".data, .pInt 2)])]) :=
  ⟨fun _ _ => rfl, rfl, rfl, rfl⟩

/-- C10: a final statement that opens a list never closed by `]` raises no
error and its key is absent from the result — at token level for EVERY
sequence of element values: end of input force-exits only one state off the
status stack, so the suspended `StatusBuildValue` never commits the pending
assignment, and the loss is invisible in the result value (earlier
completed assignments are kept). -/
theorem C10_unclosed_list :
    (∀ xs : List PyVal,
      TomlParser.parse (TomlParser.idTokA :: TomlParser.eqTok :: TomlParser.openTok ::
          TomlParser.listElemToks xs) =
        .ok (.pDict [])) ∧
    TomlParser.parse_content "a = [1,2" = .ok (.pDict []) ∧
    TomlParser.parse_content "x = 0\na = [1,2" =
      .ok (.pDict [(.pStr "x".data, .pInt 0)]) :=
  ⟨TomlParser.parse_unclosed_list, rfl, rfl⟩
